import Mathlib

/-!
Shallow embedding of the Daily-app planner (src/app.py) in Lean 4.

Dates and timestamps are modelled as integers (day numbers respectively
second counts): the source stores ISO-8601 strings, whose lexicographic
comparison agrees with chronological order, so integer order is a faithful
model of the comparisons the SQL performs.  Database tables are modelled as
lists of rows; an SQL UPDATE over a table is a map over the list, an INSERT
is an append, and row lookups are list searches.
-/

namespace DailyApp

/-- Plan status: the source stores one of the strings pending, done, missed. -/
inductive PlanStatus
  | pending
  | done
  | missed
deriving DecidableEq, Repr

/-- A row of the plans table; only the columns the claims touch are kept
(title, time_block, priority, created_at are carried data never read by the
modelled operations). -/
structure Plan where
  id : Int
  user_id : Int
  scheduled_date : Int
  status : PlanStatus
deriving DecidableEq, Repr

/-- When a UPDATE row of plans matches status pending, scheduled_date < today
and the owning user, its status is set to missed; this is the row transform of
update_missed_plans in src/app.py. -/
def rolloverPlan (userId today : Int) (p : Plan) : Plan :=
  if p.status = PlanStatus.pending ∧ p.scheduled_date < today ∧ p.user_id = userId then
    { p with status := PlanStatus.missed }
  else p

/-- UPDATE plans SET status = missed WHERE status = pending AND
scheduled_date < today AND user_id = userId (src/app.py, update_missed_plans). -/
def update_missed_plans (userId today : Int) (plans : List Plan) : List Plan :=
  plans.map (rolloverPlan userId today)

/-- UPDATE plans SET status = done WHERE id = planId AND user_id = userId
(src/app.py, complete_plan). -/
def complete_plan (userId planId : Int) (plans : List Plan) : List Plan :=
  plans.map fun p =>
    if p.id = planId ∧ p.user_id = userId then { p with status := PlanStatus.done } else p

/-- UPDATE plans SET status = pending WHERE id = planId AND user_id = userId
(src/app.py, reopen_plan). -/
def reopen_plan (userId planId : Int) (plans : List Plan) : List Plan :=
  plans.map fun p =>
    if p.id = planId ∧ p.user_id = userId then { p with status := PlanStatus.pending } else p

/-- INSERT INTO plans ... VALUES (..., pending) after the empty-title guard
(src/app.py, add_plan); the fresh row id is passed in, standing for the
autoincrement key. -/
def add_plan (userId newId sched : Int) (title : String) (plans : List Plan) : List Plan :=
  if title = "" then plans
  else plans ++ [{ id := newId, user_id := userId, scheduled_date := sched,
                   status := PlanStatus.pending }]

/-- Rolling-window normalisation (src/app.py, normalize_cycle_days).  The
source input is `int | str | None`; `none` models a missing value, `some none`
a string `int()` rejects, `some (some n)` a value parsing to `n`.
RESET_CYCLE_DAYS_DEFAULT = 90. -/
def normalize_cycle_days (value : Option (Option Int)) : Int :=
  let days : Int :=
    match value with
    | none => 90
    | some none => 90
    | some (some n) => n
  max 7 (min days 365)

/-- A row of the habits table; only the columns the modelled operations read
are kept (name, active are carried data). -/
structure Habit where
  id : Int
  user_id : Int
  target_count : Int
deriving DecidableEq, Repr

/-- A row of the habit_logs table. -/
structure HabitLog where
  habit_id : Int
  user_id : Int
  log_date : Int
  count : Int
deriving DecidableEq, Repr

/-- The log_map of compute_habit_streaks: the Python dict is filled row by
row, so for a repeated key the last row wins; an absent key is a missing
log.  Looks up the count recorded for a habit on a day. -/
def logLookup (rows : List HabitLog) (habitId d : Int) : Option Int :=
  ((rows.filter fun r => r.habit_id == habitId && r.log_date == d).map
    (fun r => r.count)).getLast?

/-- The count the streak loop reads for a day offset back from today:
log_map.get(habit_id, empty).get(check_date, 0). -/
def countOn (rows : List HabitLog) (habitId today : Int) (offset : Nat) : Int :=
  (logLookup rows habitId (today - offset)).getD 0

/-- The backward scan of compute_habit_streaks: starting at today (offset 0),
a day counts when its logged count reaches the target and the target is
positive; the scan stops at the first non-counting day and is bounded by
max_days.  The loop is rendered as recursion on the remaining window,
shifting the offset-indexed count function by one per step. -/
def streakScan (countAt : Nat → Int) (target : Int) : Nat → Nat
  | 0 => 0
  | maxDays + 1 =>
    if target ≤ countAt 0 ∧ 0 < target then
      streakScan (fun k => countAt (k + 1)) target maxDays + 1
    else 0

/-- compute_habit_streaks (src/app.py): the per-habit streak dict, modelled
as the list of (habit id, streak) pairs in habit order. -/
def compute_habit_streaks (habits : List Habit) (rows : List HabitLog)
    (maxDays : Nat) (today : Int) : List (Int × Nat) :=
  habits.map fun h =>
    (h.id, streakScan (countOn rows h.id today) h.target_count maxDays)

/-- A row of the spending_budgets table; the limits are REAL columns, modelled
as exact rationals since the operations only store and compare them.  The
autoincrement id column is omitted: no modelled operation reads it. -/
structure SpendingBudget where
  user_id : Int
  category : String
  daily_limit : Rat
  weekly_limit : Rat
deriving DecidableEq, Repr

/-- The UNIQUE (user_id, category) key of spending_budgets as a row test. -/
def budgetKey (userId : Int) (category : String) (r : SpendingBudget) : Bool :=
  r.user_id == userId && r.category == category

/-- Number of rows matching a (user, category) key; the schema constraint
UNIQUE (user_id, category) demands this stays at most 1. -/
def keyCount (table : List SpendingBudget) (userId : Int) (category : String) : Nat :=
  (table.filter (budgetKey userId category)).length

/-- add_budget (src/app.py): after the empty-category guard, INSERT ... ON
CONFLICT(user_id, category) DO UPDATE SET overwrites both limits of the
existing row for the key, or else appends a fresh row. -/
def add_budget (userId : Int) (category : String) (dl wl : Rat)
    (table : List SpendingBudget) : List SpendingBudget :=
  if category = "" then table
  else if table.any (budgetKey userId category) then
    table.map fun r =>
      if budgetKey userId category r
      then { r with daily_limit := dl, weekly_limit := wl } else r
  else table ++ [⟨userId, category, dl, wl⟩]

/-- A row of the spending_entries table (amount REAL modelled as an exact
rational; dates kept as the strings the form posts). -/
structure SpendingEntry where
  user_id : Int
  amount : Rat
  category : String
  note : String
  spend_date : String
  created_at : Int
deriving DecidableEq, Repr

/-- The WHERE test of the habit_logs queries: one habit, one day, one user. -/
def habitLogKey (habitId today userId : Int) (l : HabitLog) : Bool :=
  l.habit_id == habitId && l.log_date == today && l.user_id == userId

/-- The rows SELECT ... FROM habit_logs WHERE habit_id, log_date, user_id
returns. -/
def logsFor (logs : List HabitLog) (habitId today userId : Int) : List HabitLog :=
  logs.filter (habitLogKey habitId today userId)

/-- The total count recorded for a habit on a day (0 when no row exists);
under the UNIQUE constraint this is the count of the single matching row. -/
def loggedCount (logs : List HabitLog) (habitId today userId : Int) : Int :=
  ((logsFor logs habitId today userId).map (fun l => l.count)).sum

/-- The row transform of UPDATE habit_logs SET count = count + 1 WHERE
habit_id, log_date, user_id. -/
def bumpHabitLog (habitId today userId : Int) (l : HabitLog) : HabitLog :=
  if habitLogKey habitId today userId l then { l with count := l.count + 1 } else l

/-- log_habit (src/app.py): when the habit exists and is owned by the user,
the (habit, today) log row is incremented by one — created with count 1 when
fetchone() finds no row — and otherwise the handler redirects leaving the
table untouched. -/
def log_habit (userId habitId today : Int) (habits : List Habit)
    (logs : List HabitLog) : List HabitLog :=
  if habits.any (fun h => h.id == habitId && h.user_id == userId) then
    match (logsFor logs habitId today userId).head? with
    | some _ => logs.map (bumpHabitLog habitId today userId)
    | none => logs ++ [⟨habitId, userId, today, 1⟩]
  else logs

/-- A row of the routine_items table (label and sort order are carried data
the toggle never reads). -/
structure RoutineItem where
  id : Int
  user_id : Int
deriving DecidableEq, Repr

/-- A row of the routine_item_logs table; done is the INTEGER column the
source stores 0 or 1 into. -/
structure RoutineItemLog where
  routine_item_id : Int
  user_id : Int
  log_date : Int
  done : Int
deriving DecidableEq, Repr

/-- The WHERE test of the routine_item_logs queries. -/
def itemLogKey (itemId today userId : Int) (l : RoutineItemLog) : Bool :=
  l.routine_item_id == itemId && l.log_date == today && l.user_id == userId

/-- The rows SELECT done FROM routine_item_logs WHERE routine_item_id,
log_date, user_id returns. -/
def itemLogsFor (logs : List RoutineItemLog) (itemId today userId : Int) :
    List RoutineItemLog :=
  logs.filter (itemLogKey itemId today userId)

/-- The row transform of UPDATE routine_item_logs SET done = newValue WHERE
routine_item_id, log_date, user_id. -/
def setItemLogDone (itemId today userId newValue : Int) (l : RoutineItemLog) :
    RoutineItemLog :=
  if itemLogKey itemId today userId l then { l with done := newValue } else l

/-- toggle_routine_item (src/app.py): when the item exists and is owned by
the user, the (item, today) log row is created with done 1 when fetchone()
finds none, and otherwise rewritten with 0 if its done value is truthy and 1
if it is falsy (Python: new_value = 0 if current done else 1). -/
def toggle_routine_item (userId itemId today : Int) (items : List RoutineItem)
    (logs : List RoutineItemLog) : List RoutineItemLog :=
  if items.any (fun i => i.id == itemId && i.user_id == userId) then
    match (itemLogsFor logs itemId today userId).head? with
    | some current =>
      logs.map (setItemLogDone itemId today userId (if current.done ≠ 0 then 0 else 1))
    | none => logs ++ [⟨itemId, userId, today, 1⟩]
  else logs

/-- Whether the item counts as completed today: a matching log row exists
with nonzero done. -/
def doneToday (logs : List RoutineItemLog) (itemId today userId : Int) : Bool :=
  (itemLogsFor logs itemId today userId).any (fun l => l.done != 0)

/-- A row of the invites table; timestamps are modelled as integers since
the source compares their ISO strings lexicographically.  The inviter and
created_at columns are carried data the modelled operations never read. -/
structure Invite where
  token : String
  expires_at : Int
  used_by_user_id : Option Int
deriving DecidableEq, Repr

/-- A row of the users table (password hash and created_at omitted: the
modelled operations only read id, username and email). -/
structure User where
  id : Int
  username : String
  email : String
deriving DecidableEq, Repr

/-- The Flask session fields the modelled handlers touch. -/
structure Session where
  invite_token : Option String
  user_id : Option Int
deriving DecidableEq, Repr

/-- The SELECT shared by accept_invite and register: an invite row with the
given token that is unused (used_by_user_id IS NULL) and unexpired
(expires_at >= now). -/
def findValidInvite (invites : List Invite) (token : String) (now : Int) :
    Option Invite :=
  invites.find? fun i =>
    i.token == token && i.used_by_user_id == none && decide (now ≤ i.expires_at)

/-- The page outcome of accept_invite. -/
inductive AcceptOutcome
  | invalidPage
  | redirectRegister
deriving DecidableEq, Repr

/-- accept_invite (src/app.py): an unknown, expired or already-used token
renders the invalid-invite page and leaves the session alone; a valid one
stores the token in the session and redirects to the register page. -/
def accept_invite (token : String) (now : Int) (invites : List Invite)
    (session : Session) : AcceptOutcome × Session :=
  match findValidInvite invites token now with
  | none => (AcceptOutcome.invalidPage, session)
  | some _ =>
    (AcceptOutcome.redirectRegister, { session with invite_token := some token })

/-- The outcome of the register POST handler: a re-rendered form with an
error message, the dedicated invalid-invite error render, or a redirect to
the dashboard as the freshly created user. -/
inductive RegisterOutcome
  | formError
  | invalidInvite
  | success (userId : Int)
deriving DecidableEq, Repr

/-- The id the users INSERT assigns: the source forces id 1 for the first
user and otherwise reads back the autoincrement key, modelled as one past
the largest existing id. -/
def freshUserId (users : List User) : Int :=
  if users = [] then 1 else (users.map (fun u => u.id)).foldr max 0 + 1

/-- The insert phase of register (src/app.py): duplicate email or username
re-renders the form; otherwise the user row is created, and when an invite
token sits in the session the matching invite row is marked used by the new
user and the token is popped from the session; the session then carries the
new user id.  The first-user backfill of legacy rows touches only tables not
modelled here and is omitted. -/
def registerInsert (username email : String) (session : Session)
    (users : List User) (invites : List Invite) :
    RegisterOutcome × Session × List User × List Invite :=
  if users.any (fun u => u.email == email) then
    (RegisterOutcome.formError, session, users, invites)
  else if users.any (fun u => u.username == username) then
    (RegisterOutcome.formError, session, users, invites)
  else
    match session.invite_token with
    | some tok =>
      (RegisterOutcome.success (freshUserId users),
       { invite_token := none, user_id := some (freshUserId users) },
       users ++ [⟨freshUserId users, username, email⟩],
       invites.map fun i =>
         if i.token == tok
         then { i with used_by_user_id := some (freshUserId users) } else i)
    | none =>
      (RegisterOutcome.success (freshUserId users),
       { session with user_id := some (freshUserId users) },
       users ++ [⟨freshUserId users, username, email⟩], invites)

/-- register (src/app.py), POST path: required fields, matching passwords,
then — when the session carries an invite token — a re-validation of that
token, before the insert phase runs. -/
def register (username email password confirm : String) (now : Int)
    (session : Session) (users : List User) (invites : List Invite) :
    RegisterOutcome × Session × List User × List Invite :=
  if username = "" ∨ email = "" ∨ password = "" then
    (RegisterOutcome.formError, session, users, invites)
  else if password ≠ confirm then
    (RegisterOutcome.formError, session, users, invites)
  else
    match session.invite_token with
    | some tok =>
      if (findValidInvite invites tok now).isNone then
        (RegisterOutcome.invalidInvite, session, users, invites)
      else registerInsert username email session users invites
    | none => registerInsert username email session users invites

/-- add_spending (src/app.py).  The float(amount_raw) parse is abstracted as
an Option input: none models a string float() rejects, some a a string
parsing to the value a.  A failed parse or a non-positive amount redirects
without touching the table; otherwise one row is inserted. -/
def add_spending (userId : Int) (amountParsed : Option Rat)
    (category note spendDate todayIso : String) (now : Int)
    (entries : List SpendingEntry) : List SpendingEntry :=
  let category := if category = "" then "Other" else category
  let note := if note = "" then "Daily spend" else note
  let spendDate := if spendDate = "" then todayIso else spendDate
  match amountParsed with
  | none => entries
  | some amount =>
    if amount ≤ 0 then entries
    else entries ++ [⟨userId, amount, category, note, spendDate, now⟩]

end DailyApp

namespace DailyApp

/-- Pointwise idempotence of the rollover row transform: once a row has been
rewritten to missed it no longer matches the WHERE clause. -/
theorem rolloverPlan_idem (userId today : Int) (p : Plan) :
    rolloverPlan userId today (rolloverPlan userId today p) = rolloverPlan userId today p := by
  by_cases hc : p.status = PlanStatus.pending ∧ p.scheduled_date < today ∧ p.user_id = userId
  · simp [rolloverPlan, hc]
  · simp [rolloverPlan, hc]

/-- C1: after update_missed_plans runs, every plan of the user that was
pending and scheduled strictly before today is missed; every plan scheduled on
or after today is unchanged; and no plan that was done is altered. -/
theorem update_missed_plans_rollover (userId today : Int) (plans : List Plan)
    (i : Nat) (h : i < plans.length)
    (h2 : i < (update_missed_plans userId today plans).length) :
    ((plans.get ⟨i, h⟩).user_id = userId → (plans.get ⟨i, h⟩).status = PlanStatus.pending →
      (plans.get ⟨i, h⟩).scheduled_date < today →
      ((update_missed_plans userId today plans).get ⟨i, h2⟩).status = PlanStatus.missed) ∧
    (today ≤ (plans.get ⟨i, h⟩).scheduled_date →
      (update_missed_plans userId today plans).get ⟨i, h2⟩ = plans.get ⟨i, h⟩) ∧
    ((plans.get ⟨i, h⟩).status = PlanStatus.done →
      (update_missed_plans userId today plans).get ⟨i, h2⟩ = plans.get ⟨i, h⟩) := by
  have hmap : (update_missed_plans userId today plans).get ⟨i, h2⟩
      = rolloverPlan userId today (plans.get ⟨i, h⟩) := by
    simp [update_missed_plans, List.get_eq_getElem, List.getElem_map]
  rw [hmap]
  refine ⟨?_, ?_, ?_⟩
  · intro hu hs hd
    simp only [List.get_eq_getElem] at hu hs hd
    simp [rolloverPlan, hu, hs, hd]
  · intro hd
    rw [rolloverPlan, if_neg]
    rintro ⟨_, hlt, _⟩
    omega
  · intro hs
    rw [rolloverPlan, if_neg]
    rintro ⟨hp, _, _⟩
    rw [hs] at hp
    cases hp

/-- C1 witness: a pending plan of user 1 scheduled on day 5 becomes missed
when today is day 10, a plan on day 20 is untouched, and a done plan is
untouched. -/
theorem update_missed_plans_rollover_witness :
    ((update_missed_plans 1 10 [⟨1, 1, 5, PlanStatus.pending⟩,
        ⟨2, 1, 20, PlanStatus.pending⟩, ⟨3, 1, 4, PlanStatus.done⟩]).get
      ⟨0, by decide⟩).status = PlanStatus.missed ∧
    (update_missed_plans 1 10 [⟨1, 1, 5, PlanStatus.pending⟩,
        ⟨2, 1, 20, PlanStatus.pending⟩, ⟨3, 1, 4, PlanStatus.done⟩]).get ⟨1, by decide⟩
      = ⟨2, 1, 20, PlanStatus.pending⟩ ∧
    (update_missed_plans 1 10 [⟨1, 1, 5, PlanStatus.pending⟩,
        ⟨2, 1, 20, PlanStatus.pending⟩, ⟨3, 1, 4, PlanStatus.done⟩]).get ⟨2, by decide⟩
      = ⟨3, 1, 4, PlanStatus.done⟩ :=
  ⟨(update_missed_plans_rollover 1 10
      [⟨1, 1, 5, PlanStatus.pending⟩, ⟨2, 1, 20, PlanStatus.pending⟩,
       ⟨3, 1, 4, PlanStatus.done⟩] 0 (by decide) (by decide)).1 rfl rfl (by decide),
   (update_missed_plans_rollover 1 10
      [⟨1, 1, 5, PlanStatus.pending⟩, ⟨2, 1, 20, PlanStatus.pending⟩,
       ⟨3, 1, 4, PlanStatus.done⟩] 1 (by decide) (by decide)).2.1 (by decide),
   (update_missed_plans_rollover 1 10
      [⟨1, 1, 5, PlanStatus.pending⟩, ⟨2, 1, 20, PlanStatus.pending⟩,
       ⟨3, 1, 4, PlanStatus.done⟩] 2 (by decide) (by decide)).2.2 rfl⟩

/-- C7: update_missed_plans is idempotent for a fixed value of today, and
among the plan-table operations of the source only update_missed_plans can
produce a missed row: complete_plan, reopen_plan and add_plan return a missed
row only if that very row was already in the table, and likewise
update_missed_plans introduces no new done or pending row, complete_plan no
pending row, reopen_plan no done row, and add_plan neither. -/
theorem plan_status_transitions (userId today planId newId sched : Int) (title : String)
    (plans : List Plan) :
    update_missed_plans userId today (update_missed_plans userId today plans)
      = update_missed_plans userId today plans ∧
    (∀ q ∈ update_missed_plans userId today plans,
      q.status = PlanStatus.done ∨ q.status = PlanStatus.pending → q ∈ plans) ∧
    (∀ q ∈ complete_plan userId planId plans,
      q.status = PlanStatus.missed ∨ q.status = PlanStatus.pending → q ∈ plans) ∧
    (∀ q ∈ reopen_plan userId planId plans,
      q.status = PlanStatus.missed ∨ q.status = PlanStatus.done → q ∈ plans) ∧
    (∀ q ∈ add_plan userId newId sched title plans,
      q.status = PlanStatus.missed ∨ q.status = PlanStatus.done → q ∈ plans) := by
  refine ⟨?_, ?_, ?_, ?_, ?_⟩
  · simp only [update_missed_plans, List.map_map]
    refine List.map_congr_left (fun p _ => ?_)
    simp only [Function.comp_apply]
    exact rolloverPlan_idem userId today p
  · intro q hq hstatus
    obtain ⟨p, hp, rfl⟩ := List.mem_map.1 hq
    by_cases hc : p.status = PlanStatus.pending ∧ p.scheduled_date < today ∧ p.user_id = userId
    · simp [rolloverPlan, hc] at hstatus
    · simpa [rolloverPlan, hc] using hp
  · intro q hq hstatus
    obtain ⟨p, hp, rfl⟩ := List.mem_map.1 hq
    by_cases hc : p.id = planId ∧ p.user_id = userId
    · simp [hc] at hstatus
    · simpa [hc] using hp
  · intro q hq hstatus
    obtain ⟨p, hp, rfl⟩ := List.mem_map.1 hq
    by_cases hc : p.id = planId ∧ p.user_id = userId
    · simp [hc] at hstatus
    · simpa [hc] using hp
  · intro q hq hstatus
    by_cases ht : title = ""
    · simpa [add_plan, ht] using hq
    · rw [add_plan, if_neg ht] at hq
      rcases List.mem_append.1 hq with hmem | hmem
      · exact hmem
      · simp at hmem
        rw [hmem] at hstatus
        simp at hstatus

/-- C7 witness: double rollover equals single rollover on a concrete table,
and a done row surviving reopen_plan was already present. -/
theorem plan_status_transitions_witness :
    update_missed_plans 1 10 (update_missed_plans 1 10
        [⟨1, 1, 5, PlanStatus.pending⟩, ⟨2, 1, 20, PlanStatus.done⟩])
      = update_missed_plans 1 10
        [⟨1, 1, 5, PlanStatus.pending⟩, ⟨2, 1, 20, PlanStatus.done⟩] ∧
    (⟨2, 1, 20, PlanStatus.done⟩ : Plan)
      ∈ [⟨1, 1, 5, PlanStatus.pending⟩, ⟨2, 1, 20, PlanStatus.done⟩] :=
  ⟨(plan_status_transitions 1 10 5 3 12 "x"
      [⟨1, 1, 5, PlanStatus.pending⟩, ⟨2, 1, 20, PlanStatus.done⟩]).1,
   (plan_status_transitions 1 10 5 3 12 "x"
      [⟨1, 1, 5, PlanStatus.pending⟩, ⟨2, 1, 20, PlanStatus.done⟩]).2.2.2.1
     ⟨2, 1, 20, PlanStatus.done⟩ (by decide) (Or.inr rfl)⟩

/-- Unfolding equation for the streak scan on a nonempty window. -/
theorem streakScan_succ (countAt : Nat → Int) (target : Int) (maxDays : Nat) :
    streakScan countAt target (maxDays + 1)
      = if target ≤ countAt 0 ∧ 0 < target then
          streakScan (fun k => countAt (k + 1)) target maxDays + 1
        else 0 := rfl

/-- Characterisation of the backward scan for a positive target: it returns N
exactly when the first N offsets all meet the target and the scan then stops,
either because the window is exhausted or because offset N falls short. -/
theorem streakScan_eq_iff (target : Int) (htarget : 0 < target) :
    ∀ (maxDays : Nat) (countAt : Nat → Int) (N : Nat),
    streakScan countAt target maxDays = N ↔
      N ≤ maxDays ∧ (∀ k < N, target ≤ countAt k) ∧
      (N = maxDays ∨ countAt N < target) := by
  intro maxDays
  induction maxDays with
  | zero =>
    intro countAt N
    constructor
    · intro hEq
      simp only [streakScan] at hEq
      subst hEq
      exact ⟨Nat.le_refl 0, fun k hk => absurd hk (Nat.not_lt_zero k), Or.inl rfl⟩
    · rintro ⟨hle, -, -⟩
      simp only [streakScan]
      omega
  | succ M ih =>
    intro countAt N
    by_cases hc : target ≤ countAt 0
    · have hcond : target ≤ countAt 0 ∧ 0 < target := ⟨hc, htarget⟩
      rw [streakScan_succ, if_pos hcond]
      cases N with
      | zero =>
        constructor
        · intro hEq
          omega
        · rintro ⟨-, -, hor⟩
          rcases hor with h0 | hlt
          · omega
          · omega
      | succ M2 =>
        have hih := ih (fun k => countAt (k + 1)) M2
        constructor
        · intro hEq
          have hS : streakScan (fun k => countAt (k + 1)) target M = M2 := by omega
          obtain ⟨h1, h2, h3⟩ := hih.1 hS
          refine ⟨by omega, ?_, ?_⟩
          · intro k hk
            cases k with
            | zero => exact hc
            | succ j => exact h2 j (by omega)
          · rcases h3 with h3 | h3
            · exact Or.inl (by omega)
            · exact Or.inr h3
        · rintro ⟨h1, h2, h3⟩
          have hS : streakScan (fun k => countAt (k + 1)) target M = M2 := by
            apply hih.2
            refine ⟨by omega, fun j hj => h2 (j + 1) (by omega), ?_⟩
            rcases h3 with h3 | h3
            · exact Or.inl (by omega)
            · exact Or.inr h3
          omega
    · have hcond : ¬(target ≤ countAt 0 ∧ 0 < target) := fun hand => hc hand.1
      rw [streakScan_succ, if_neg hcond]
      constructor
      · intro hEq
        subst hEq
        exact ⟨Nat.zero_le _, fun k hk => absurd hk (Nat.not_lt_zero k),
          Or.inr (not_le.mp hc)⟩
      · rintro ⟨-, h2, -⟩
        cases N with
        | zero => rfl
        | succ M2 => exact absurd (h2 0 (by omega)) hc

/-- C2: for a habit with positive target, compute_habit_streaks returns N
exactly when the N consecutive days ending today all have a logged count at
least the target, and either N is the window bound max_days or the day N days
before today has a missing log or a count below the target. -/
theorem compute_habit_streaks_characterization (habits : List Habit)
    (rows : List HabitLog) (maxDays : Nat) (today : Int) (i : Nat)
    (h : i < habits.length)
    (h2 : i < (compute_habit_streaks habits rows maxDays today).length) (N : Nat)
    (htarget : 0 < (habits.get ⟨i, h⟩).target_count) :
    ((compute_habit_streaks habits rows maxDays today).get ⟨i, h2⟩).2 = N ↔
      N ≤ maxDays ∧
      (∀ k < N, (habits.get ⟨i, h⟩).target_count
        ≤ countOn rows (habits.get ⟨i, h⟩).id today k) ∧
      (N = maxDays ∨ logLookup rows (habits.get ⟨i, h⟩).id (today - N) = none ∨
        countOn rows (habits.get ⟨i, h⟩).id today N
          < (habits.get ⟨i, h⟩).target_count) := by
  have hmap : ((compute_habit_streaks habits rows maxDays today).get ⟨i, h2⟩).2
      = streakScan (countOn rows (habits.get ⟨i, h⟩).id today)
          (habits.get ⟨i, h⟩).target_count maxDays := by
    simp [compute_habit_streaks, List.get_eq_getElem, List.getElem_map]
  rw [hmap, streakScan_eq_iff _ htarget maxDays _ N]
  have hiff : (logLookup rows (habits.get ⟨i, h⟩).id (today - N) = none ∨
      countOn rows (habits.get ⟨i, h⟩).id today N < (habits.get ⟨i, h⟩).target_count)
      ↔ countOn rows (habits.get ⟨i, h⟩).id today N
          < (habits.get ⟨i, h⟩).target_count := by
    constructor
    · rintro (hl | hlt)
      · unfold countOn
        rw [hl]
        exact htarget
      · exact hlt
    · exact Or.inr
  rw [hiff]

/-- C2 witness: the spec scenario — target 2, today logged 2, yesterday 2,
two days ago 1 — yields streak 2 (days numbered so that today is 100). -/
theorem compute_habit_streaks_characterization_witness :
    ((compute_habit_streaks [⟨1, 1, 2⟩]
        [⟨1, 1, 100, 2⟩, ⟨1, 1, 99, 2⟩, ⟨1, 1, 98, 1⟩] 90 100).get
      ⟨0, by decide⟩).2 = 2 :=
  (compute_habit_streaks_characterization [⟨1, 1, 2⟩]
      [⟨1, 1, 100, 2⟩, ⟨1, 1, 99, 2⟩, ⟨1, 1, 98, 1⟩] 90 100 0
      (by decide) (by decide) 2 (by decide)).mpr (by decide)

/-- C3: if today has no log row for the habit, or a logged count strictly
below the target, compute_habit_streaks returns streak 0 for that habit no
matter what the earlier days look like. -/
theorem compute_habit_streaks_zero_today (habits : List Habit)
    (rows : List HabitLog) (maxDays : Nat) (today : Int) (i : Nat)
    (h : i < habits.length)
    (h2 : i < (compute_habit_streaks habits rows maxDays today).length)
    (hyp : logLookup rows (habits.get ⟨i, h⟩).id today = none ∨
      ∃ c, logLookup rows (habits.get ⟨i, h⟩).id today = some c ∧
        c < (habits.get ⟨i, h⟩).target_count) :
    ((compute_habit_streaks habits rows maxDays today).get ⟨i, h2⟩).2 = 0 := by
  have hmap : ((compute_habit_streaks habits rows maxDays today).get ⟨i, h2⟩).2
      = streakScan (countOn rows (habits.get ⟨i, h⟩).id today)
          (habits.get ⟨i, h⟩).target_count maxDays := by
    simp [compute_habit_streaks, List.get_eq_getElem, List.getElem_map]
  rw [hmap]
  cases maxDays with
  | zero => rfl
  | succ M =>
    rw [streakScan_succ, if_neg]
    rintro ⟨hge, hpos⟩
    have h0 : countOn rows (habits.get ⟨i, h⟩).id today 0
        = (logLookup rows (habits.get ⟨i, h⟩).id today).getD 0 := by
      unfold countOn
      norm_num
    rcases hyp with hl | ⟨c, hl, hcl⟩
    · rw [h0, hl] at hge
      simp only [Option.getD_none] at hge
      omega
    · rw [h0, hl] at hge
      simp only [Option.getD_some] at hge
      omega

/-- C3 witness: a habit with target 3, a log of 5 yesterday and only 1 today
has streak 0. -/
theorem compute_habit_streaks_zero_today_witness :
    ((compute_habit_streaks [⟨1, 1, 3⟩]
        [⟨1, 1, 99, 5⟩, ⟨1, 1, 100, 1⟩] 90 100).get ⟨0, by decide⟩).2 = 0 :=
  compute_habit_streaks_zero_today [⟨1, 1, 3⟩]
    [⟨1, 1, 99, 5⟩, ⟨1, 1, 100, 1⟩] 90 100 0 (by decide) (by decide)
    (Or.inr ⟨1, by decide, by decide⟩)

/-- A filtered length is unchanged by a map that does not affect the
predicate. -/
theorem length_filter_map_invariant {α : Type} (f : α → α) (p : α → Bool)
    (hf : ∀ x, p (f x) = p x) (l : List α) :
    ((l.map f).filter p).length = (l.filter p).length := by
  induction l with
  | nil => rfl
  | cons x t iht =>
    simp only [List.map_cons, List.filter_cons, hf x]
    by_cases hx : p x = true
    · simp [hx, iht]
    · simp [hx, iht]

/-- The row transform of the budget upsert leaves every key test unchanged:
only the limit columns are overwritten. -/
theorem budgetKey_update (userId : Int) (category : String) (dl wl : Rat)
    (u : Int) (c : String) (r : SpendingBudget) :
    budgetKey u c (if budgetKey userId category r
      then { r with daily_limit := dl, weekly_limit := wl } else r)
      = budgetKey u c r := by
  by_cases hr : budgetKey userId category r = true
  · rw [if_pos hr]
    rfl
  · rw [if_neg hr]

/-- C4: on a table satisfying the UNIQUE (user_id, category) constraint, a
budget upsert with a nonempty category leaves exactly one row for its key,
that row holds the limits of this latest submission, and the uniqueness
constraint still holds — so any number of resubmissions keeps a single row
with the latest values. -/
theorem add_budget_upsert (userId : Int) (category : String) (dl wl : Rat)
    (table : List SpendingBudget) (hcat : category ≠ "")
    (huniq : ∀ u c, keyCount table u c ≤ 1) :
    keyCount (add_budget userId category dl wl table) userId category = 1 ∧
    (∀ r ∈ add_budget userId category dl wl table,
      r.user_id = userId → r.category = category →
        r.daily_limit = dl ∧ r.weekly_limit = wl) ∧
    (∀ u c, keyCount (add_budget userId category dl wl table) u c ≤ 1) := by
  by_cases hexists : table.any (budgetKey userId category) = true
  · have hrw : add_budget userId category dl wl table
        = table.map fun r =>
            if budgetKey userId category r
            then { r with daily_limit := dl, weekly_limit := wl } else r := by
      rw [add_budget, if_neg hcat, if_pos hexists]
    have hkc : ∀ u c, keyCount (add_budget userId category dl wl table) u c
        = keyCount table u c := by
      intro u c
      rw [hrw]
      exact length_filter_map_invariant _ _
        (budgetKey_update userId category dl wl u c) table
    refine ⟨?_, ?_, ?_⟩
    · rw [hkc]
      obtain ⟨r, hrmem, hrkey⟩ := List.any_eq_true.1 hexists
      have hpos : 0 < keyCount table userId category := by
        have hmem : r ∈ table.filter (budgetKey userId category) :=
          List.mem_filter.2 ⟨hrmem, hrkey⟩
        unfold keyCount
        exact List.length_pos.2 (List.ne_nil_of_mem hmem)
      have hle := huniq userId category
      omega
    · intro r hr hu hc
      rw [hrw] at hr
      obtain ⟨p, hp, rfl⟩ := List.mem_map.1 hr
      by_cases hkey : budgetKey userId category p = true
      · simp [hkey]
      · exfalso
        apply hkey
        rw [if_neg hkey] at hu hc
        simp [budgetKey, hu, hc]
    · intro u c
      rw [hkc]
      exact huniq u c
  · have hrw : add_budget userId category dl wl table
        = table ++ [⟨userId, category, dl, wl⟩] := by
      rw [add_budget, if_neg hcat, if_neg hexists]
    have hzero : keyCount table userId category = 0 := by
      unfold keyCount
      rw [List.length_eq_zero, List.filter_eq_nil_iff]
      intro a ha hkey
      exact hexists (List.any_eq_true.2 ⟨a, ha, hkey⟩)
    refine ⟨?_, ?_, ?_⟩
    · rw [hrw]
      unfold keyCount
      rw [List.filter_append, List.length_append]
      have h1 : ([⟨userId, category, dl, wl⟩] : List SpendingBudget).filter
          (budgetKey userId category) = [⟨userId, category, dl, wl⟩] := by
        simp [budgetKey]
      rw [h1]
      unfold keyCount at hzero
      simp [hzero]
    · intro r hr hu hc
      rw [hrw] at hr
      rcases List.mem_append.1 hr with hmem | hmem
      · exact absurd (List.any_eq_true.2 ⟨r, hmem, by simp [budgetKey, hu, hc]⟩) hexists
      · simp at hmem
        subst hmem
        exact ⟨rfl, rfl⟩
    · intro u c
      rw [hrw]
      unfold keyCount
      rw [List.filter_append, List.length_append]
      by_cases hnew : budgetKey u c ⟨userId, category, dl, wl⟩ = true
      · have hu2 : u = userId ∧ c = category := by
          unfold budgetKey at hnew
          simp only [Bool.and_eq_true, beq_iff_eq] at hnew
          exact ⟨hnew.1.symm, hnew.2.symm⟩
        rw [hu2.1, hu2.2]
        have h1 : ([⟨userId, category, dl, wl⟩] : List SpendingBudget).filter
            (budgetKey userId category) = [⟨userId, category, dl, wl⟩] := by
          simp [budgetKey]
        rw [h1]
        unfold keyCount at hzero
        simp only [List.length_singleton]
        omega
      · have hle := huniq u c
        unfold keyCount at hle
        simp [hnew]
        omega

/-- C4 witness: two upserts for category Food with daily limit 10 then 20,
starting from an empty table, leave exactly one Food row and it carries
daily limit 20. -/
theorem add_budget_upsert_witness :
    keyCount (add_budget 1 "Food" 20 0 (add_budget 1 "Food" 10 0 [])) 1 "Food" = 1 ∧
    (∀ r ∈ add_budget 1 "Food" 20 0 (add_budget 1 "Food" 10 0 []),
      r.user_id = 1 → r.category = "Food" →
        r.daily_limit = 20 ∧ r.weekly_limit = 0) :=
  have huniq : ∀ u c, keyCount (add_budget 1 "Food" 10 0 []) u c ≤ 1 := fun u c =>
    le_trans (List.length_filter_le _ _) (by decide)
  ⟨(add_budget_upsert 1 "Food" 20 0 (add_budget 1 "Food" 10 0 [])
      (by decide) huniq).1,
   (add_budget_upsert 1 "Food" 20 0 (add_budget 1 "Food" 10 0 [])
      (by decide) huniq).2.1⟩

/-- C5: a spend submission whose amount does not parse, or parses to a value
at most 0, leaves the spending_entries table exactly as it was (the handler
redirects without inserting). -/
theorem add_spending_rejects_invalid (userId : Int) (amountParsed : Option Rat)
    (category note spendDate todayIso : String) (now : Int)
    (entries : List SpendingEntry)
    (hbad : amountParsed = none ∨ ∃ a, amountParsed = some a ∧ a ≤ 0) :
    add_spending userId amountParsed category note spendDate todayIso now entries
      = entries := by
  rcases hbad with h | ⟨a, h, ha⟩
  · simp [add_spending, h]
  · simp [add_spending, h, ha]

/-- C5 witness: a negative amount and an unparseable amount both leave the
table untouched. -/
theorem add_spending_rejects_invalid_witness :
    add_spending 1 (some (-5)) "Food" "" "" "2024-01-01" 0 [] = ([] : List SpendingEntry) ∧
    add_spending 1 none "Food" "" "" "2024-01-01" 0 [] = ([] : List SpendingEntry) :=
  ⟨add_spending_rejects_invalid 1 (some (-5)) "Food" "" "" "2024-01-01" 0 []
     (Or.inr ⟨-5, rfl, by norm_num⟩),
   add_spending_rejects_invalid 1 none "Food" "" "" "2024-01-01" 0 []
     (Or.inl rfl)⟩

/-- C8: normalize_cycle_days always lands in 7..365; a missing or unparseable
value yields the default 90; values below 7 are raised to 7 and values above
365 are lowered to 365. -/
theorem normalize_cycle_days_spec (value : Option (Option Int)) :
    (7 ≤ normalize_cycle_days value ∧ normalize_cycle_days value ≤ 365) ∧
    (value = none → normalize_cycle_days value = 90) ∧
    (value = some none → normalize_cycle_days value = 90) ∧
    (∀ n, value = some (some n) → n < 7 → normalize_cycle_days value = 7) ∧
    (∀ n, value = some (some n) → 365 < n → normalize_cycle_days value = 365) := by
  rcases value with _ | _ | n <;>
    simp only [normalize_cycle_days] <;>
    refine ⟨⟨by omega, by omega⟩, ?_, ?_, ?_, ?_⟩ <;>
    first
      | (intro h; simp_all; done)
      | (intro m hm hlt; simp_all; done)
      | (intro m hm hlt
         obtain rfl : n = m := by simpa using hm
         omega)

/-- C8 witness: concrete evaluations covering the default, the lower clamp and
the upper clamp. -/
theorem normalize_cycle_days_spec_witness :
    normalize_cycle_days (some none) = 90 ∧
    normalize_cycle_days (some (some 3)) = 7 ∧
    normalize_cycle_days (some (some 1000)) = 365 :=
  ⟨(normalize_cycle_days_spec (some none)).2.2.1 rfl,
   (normalize_cycle_days_spec (some (some 3))).2.2.2.1 3 rfl (by decide),
   (normalize_cycle_days_spec (some (some 1000))).2.2.2.2 1000 rfl (by decide)⟩

/-- A map that does not affect the predicate commutes with the filter. -/
theorem filter_map_invariant {α : Type} (f : α → α) (p : α → Bool)
    (hf : ∀ x, p (f x) = p x) (l : List α) :
    (l.map f).filter p = (l.filter p).map f := by
  induction l with
  | nil => rfl
  | cons x t iht =>
    simp only [List.map_cons, List.filter_cons, hf x]
    by_cases hx : p x = true
    · simp [hx, iht]
    · simp [hx, iht]

/-- A list of length at most one whose head is x is exactly the singleton of
x. -/
theorem eq_singleton_of_head?_of_len_le {α : Type} (l : List α) (x : α)
    (hhead : l.head? = some x) (hlen : l.length ≤ 1) : l = [x] := by
  match l with
  | [] => exact absurd hhead (by simp)
  | [a] =>
    have : a = x := by simpa using hhead
    rw [this]
  | a :: b :: t => simp at hlen

/-- The habit-log increment leaves every key test unchanged: only the count
column changes. -/
theorem habitLogKey_bump (habitId today userId h2 d2 u2 : Int) (l : HabitLog) :
    habitLogKey h2 d2 u2 (bumpHabitLog habitId today userId l)
      = habitLogKey h2 d2 u2 l := by
  unfold bumpHabitLog
  by_cases hk : habitLogKey habitId today userId l = true
  · rw [if_pos hk]
    rfl
  · rw [if_neg hk]

/-- C9: when the habit exists and belongs to the user and the habit_logs
UNIQUE constraint holds for its key, one log_habit call raises the logged
count for (habit, today) by exactly one, creating the row with count 1 when
none existed, and leaves the rows of every other (habit, day, user) key
untouched. -/
theorem log_habit_increment (userId habitId today : Int) (habits : List Habit)
    (logs : List HabitLog)
    (hhabit : ∃ h ∈ habits, h.id = habitId ∧ h.user_id = userId)
    (huniq : (logsFor logs habitId today userId).length ≤ 1) :
    loggedCount (log_habit userId habitId today habits logs) habitId today userId
      = loggedCount logs habitId today userId + 1 ∧
    (logsFor logs habitId today userId = [] →
      logsFor (log_habit userId habitId today habits logs) habitId today userId
        = [⟨habitId, userId, today, 1⟩]) ∧
    (∀ h2 d2 u2, ¬(h2 = habitId ∧ d2 = today ∧ u2 = userId) →
      logsFor (log_habit userId habitId today habits logs) h2 d2 u2
        = logsFor logs h2 d2 u2) := by
  have hany : habits.any (fun h => h.id == habitId && h.user_id == userId) = true := by
    obtain ⟨h, hm, h1, h2⟩ := hhabit
    exact List.any_eq_true.2 ⟨h, hm, by simp [h1, h2]⟩
  have hnewkey : habitLogKey habitId today userId ⟨habitId, userId, today, 1⟩ = true := by
    simp [habitLogKey]
  cases hcur : (logsFor logs habitId today userId).head? with
  | none =>
    have hnil : logsFor logs habitId today userId = [] := by
      cases hl : logsFor logs habitId today userId with
      | nil => rfl
      | cons a t =>
        rw [hl] at hcur
        simp at hcur
    have hrw : log_habit userId habitId today habits logs
        = logs ++ [⟨habitId, userId, today, 1⟩] := by
      unfold log_habit
      rw [if_pos hany, hcur]
    refine ⟨?_, ?_, ?_⟩
    · rw [hrw]
      unfold loggedCount logsFor
      rw [List.filter_append, List.map_append, List.sum_append]
      unfold logsFor at hnil
      rw [hnil]
      simp [hnewkey]
    · intro _
      rw [hrw]
      unfold logsFor
      rw [List.filter_append]
      unfold logsFor at hnil
      rw [hnil]
      simp [hnewkey]
    · intro h2 d2 u2 hne
      rw [hrw]
      unfold logsFor
      rw [List.filter_append]
      have hnew2 : habitLogKey h2 d2 u2 ⟨habitId, userId, today, 1⟩ = false := by
        apply Bool.eq_false_iff.mpr
        intro htrue
        unfold habitLogKey at htrue
        simp only [Bool.and_eq_true, beq_iff_eq] at htrue
        exact hne ⟨htrue.1.1.symm, htrue.1.2.symm, htrue.2.symm⟩
      simp [hnew2]
  | some current =>
    have hfilter : logsFor logs habitId today userId = [current] :=
      eq_singleton_of_head?_of_len_le _ _ hcur huniq
    have hkc : habitLogKey habitId today userId current = true := by
      have : current ∈ logsFor logs habitId today userId := by
        rw [hfilter]
        exact List.mem_singleton_self current
      exact (List.mem_filter.1 this).2
    have hrw : log_habit userId habitId today habits logs
        = logs.map (bumpHabitLog habitId today userId) := by
      unfold log_habit
      rw [if_pos hany, hcur]
    refine ⟨?_, ?_, ?_⟩
    · rw [hrw]
      unfold loggedCount logsFor
      rw [filter_map_invariant _ _ (habitLogKey_bump habitId today userId
        habitId today userId) logs]
      unfold logsFor at hfilter
      rw [hfilter]
      simp [bumpHabitLog, hkc]
    · intro hnil
      rw [hfilter] at hnil
      cases hnil
    · intro h2 d2 u2 hne
      rw [hrw]
      unfold logsFor
      rw [filter_map_invariant _ _ (habitLogKey_bump habitId today userId h2 d2 u2) logs]
      have hid : ∀ x ∈ logs.filter (habitLogKey h2 d2 u2),
          bumpHabitLog habitId today userId x = id x := by
        intro x hx
        have hk2 : habitLogKey h2 d2 u2 x = true := (List.mem_filter.1 hx).2
        have hkx : ¬(habitLogKey habitId today userId x = true) := by
          intro hkx2
          unfold habitLogKey at hk2 hkx2
          simp only [Bool.and_eq_true, beq_iff_eq] at hk2 hkx2
          exact hne ⟨hk2.1.1.symm.trans hkx2.1.1, hk2.1.2.symm.trans hkx2.1.2,
            hk2.2.symm.trans hkx2.2⟩
        unfold bumpHabitLog
        rw [if_neg hkx]
        rfl
      rw [List.map_congr_left hid, List.map_id]

/-- C9 witness: logging a fresh habit with no rows for today creates the row
with count 1 and raises the logged count from 0 to 1. -/
theorem log_habit_increment_witness :
    loggedCount (log_habit 1 1 100 [⟨1, 1, 2⟩] []) 1 100 1
      = loggedCount [] 1 100 1 + 1 ∧
    logsFor (log_habit 1 1 100 [⟨1, 1, 2⟩] []) 1 100 1 = [⟨1, 1, 100, 1⟩] :=
  have hyp := log_habit_increment 1 1 100 [⟨1, 1, 2⟩] []
    ⟨⟨1, 1, 2⟩, by decide, rfl, rfl⟩ (by decide)
  ⟨hyp.1, hyp.2.1 rfl⟩

/-- The routine-log done update leaves every key test unchanged: only the
done column changes. -/
theorem itemLogKey_set (itemId today userId v i2 d2 u2 : Int) (l : RoutineItemLog) :
    itemLogKey i2 d2 u2 (setItemLogDone itemId today userId v l)
      = itemLogKey i2 d2 u2 l := by
  unfold setItemLogDone
  by_cases hk : itemLogKey itemId today userId l = true
  · rw [if_pos hk]
    rfl
  · rw [if_neg hk]

/-- Unfolding of the toggle when no log row exists for (item, today). -/
theorem toggle_item_of_nil (userId itemId today : Int) (items : List RoutineItem)
    (logs : List RoutineItemLog)
    (hany : items.any (fun i => i.id == itemId && i.user_id == userId) = true)
    (hnil : itemLogsFor logs itemId today userId = []) :
    toggle_routine_item userId itemId today items logs
      = logs ++ [⟨itemId, userId, today, 1⟩] := by
  unfold toggle_routine_item
  rw [if_pos hany, hnil]
  rfl

/-- Unfolding of the toggle when exactly the row cur exists for
(item, today): every matching row gets the flipped done value. -/
theorem toggle_item_of_one (userId itemId today : Int) (items : List RoutineItem)
    (logs : List RoutineItemLog) (cur : RoutineItemLog)
    (hany : items.any (fun i => i.id == itemId && i.user_id == userId) = true)
    (hone : itemLogsFor logs itemId today userId = [cur]) :
    toggle_routine_item userId itemId today items logs
      = logs.map (setItemLogDone itemId today userId
          (if cur.done ≠ 0 then 0 else 1)) := by
  unfold toggle_routine_item
  rw [if_pos hany, hone]
  rfl

/-- After a toggle starting from no row, the key holds exactly the fresh row
with done 1. -/
theorem toggle_key_rows_of_nil (userId itemId today : Int) (items : List RoutineItem)
    (logs : List RoutineItemLog)
    (hany : items.any (fun i => i.id == itemId && i.user_id == userId) = true)
    (hnil : itemLogsFor logs itemId today userId = []) :
    itemLogsFor (toggle_routine_item userId itemId today items logs)
      itemId today userId = [⟨itemId, userId, today, 1⟩] := by
  rw [toggle_item_of_nil userId itemId today items logs hany hnil]
  unfold itemLogsFor
  rw [List.filter_append]
  unfold itemLogsFor at hnil
  rw [hnil]
  simp [itemLogKey]

/-- After a toggle starting from the single row cur, the key holds exactly
cur with its done value flipped. -/
theorem toggle_key_rows_of_one (userId itemId today : Int) (items : List RoutineItem)
    (logs : List RoutineItemLog) (cur : RoutineItemLog)
    (hany : items.any (fun i => i.id == itemId && i.user_id == userId) = true)
    (hone : itemLogsFor logs itemId today userId = [cur]) :
    itemLogsFor (toggle_routine_item userId itemId today items logs)
      itemId today userId
      = [{ cur with done := if cur.done ≠ 0 then 0 else 1 }] := by
  have hkc : itemLogKey itemId today userId cur = true := by
    have hmem : cur ∈ itemLogsFor logs itemId today userId := by
      rw [hone]
      exact List.mem_singleton_self cur
    exact (List.mem_filter.1 hmem).2
  rw [toggle_item_of_one userId itemId today items logs cur hany hone]
  unfold itemLogsFor
  rw [filter_map_invariant _ _
    (itemLogKey_set itemId today userId _ itemId today userId) logs]
  unfold itemLogsFor at hone
  rw [hone]
  unfold setItemLogDone
  rw [List.map_singleton, if_pos hkc]

/-- C10: for an existing routine item owned by the user, on a table obeying
the one-row-per-(item, day) uniqueness, the toggle creates the (item, today)
row with done 1 when absent and flips its done value by the Python truthiness
rule when present; uniqueness is preserved, so at most one row per key ever
exists, and two consecutive toggles restore the done state of the item for
today. -/
theorem toggle_routine_item_spec (userId itemId today : Int)
    (items : List RoutineItem) (logs : List RoutineItemLog)
    (hitem : ∃ i ∈ items, i.id = itemId ∧ i.user_id = userId)
    (huniq : ∀ i2 d2 u2, (itemLogsFor logs i2 d2 u2).length ≤ 1) :
    (itemLogsFor logs itemId today userId = [] →
      itemLogsFor (toggle_routine_item userId itemId today items logs)
        itemId today userId = [⟨itemId, userId, today, 1⟩]) ∧
    (∀ cur, itemLogsFor logs itemId today userId = [cur] →
      itemLogsFor (toggle_routine_item userId itemId today items logs)
        itemId today userId
        = [{ cur with done := if cur.done ≠ 0 then 0 else 1 }]) ∧
    (∀ i2 d2 u2,
      (itemLogsFor (toggle_routine_item userId itemId today items logs) i2 d2 u2).length
        ≤ 1) ∧
    doneToday (toggle_routine_item userId itemId today items
        (toggle_routine_item userId itemId today items logs)) itemId today userId
      = doneToday logs itemId today userId := by
  have hany : items.any (fun i => i.id == itemId && i.user_id == userId) = true := by
    obtain ⟨i, hm, h1, h2⟩ := hitem
    exact List.any_eq_true.2 ⟨i, hm, by simp [h1, h2]⟩
  have hcases : itemLogsFor logs itemId today userId = [] ∨
      ∃ cur, itemLogsFor logs itemId today userId = [cur] := by
    have hlen := huniq itemId today userId
    cases hl : itemLogsFor logs itemId today userId with
    | nil => exact Or.inl rfl
    | cons a t =>
      rw [hl] at hlen
      cases t with
      | nil => exact Or.inr ⟨a, rfl⟩
      | cons b t2 => simp at hlen
  refine ⟨toggle_key_rows_of_nil userId itemId today items logs hany,
    fun cur => toggle_key_rows_of_one userId itemId today items logs cur hany,
    ?_, ?_⟩
  · intro i2 d2 u2
    rcases hcases with hnil | ⟨cur, hone⟩
    · rw [toggle_item_of_nil userId itemId today items logs hany hnil]
      unfold itemLogsFor
      rw [List.filter_append, List.length_append]
      by_cases hk2 : itemLogKey i2 d2 u2 ⟨itemId, userId, today, 1⟩ = true
      · have htriple : itemId = i2 ∧ today = d2 ∧ userId = u2 := by
          unfold itemLogKey at hk2
          simp only [Bool.and_eq_true, beq_iff_eq] at hk2
          exact ⟨hk2.1.1, hk2.1.2, hk2.2⟩
        obtain ⟨h1, h2, h3⟩ := htriple
        have hz : (logs.filter (itemLogKey i2 d2 u2)).length = 0 := by
          unfold itemLogsFor at hnil
          rw [← h1, ← h2, ← h3, hnil]
          rfl
        simp [hk2, hz]
      · have hfalse : itemLogKey i2 d2 u2 ⟨itemId, userId, today, 1⟩ = false :=
          Bool.eq_false_iff.mpr hk2
        have hle := huniq i2 d2 u2
        unfold itemLogsFor at hle
        simp [hfalse]
        omega
    · rw [toggle_item_of_one userId itemId today items logs cur hany hone]
      unfold itemLogsFor
      rw [filter_map_invariant _ _
        (itemLogKey_set itemId today userId _ i2 d2 u2) logs, List.length_map]
      have hle := huniq i2 d2 u2
      unfold itemLogsFor at hle
      exact hle
  · rcases hcases with hnil | ⟨cur, hone⟩
    · have h1 := toggle_key_rows_of_nil userId itemId today items logs hany hnil
      have h2 := toggle_key_rows_of_one userId itemId today items
        (toggle_routine_item userId itemId today items logs)
        ⟨itemId, userId, today, 1⟩ hany h1
      unfold doneToday
      rw [h2, hnil]
      simp
    · have h1 := toggle_key_rows_of_one userId itemId today items logs cur hany hone
      have h2 := toggle_key_rows_of_one userId itemId today items
        (toggle_routine_item userId itemId today items logs)
        { cur with done := if cur.done ≠ 0 then 0 else 1 } hany h1
      unfold doneToday
      rw [h2, hone]
      by_cases hd : cur.done = 0
      · simp [hd]
      · simp [hd]

/-- C10 witness: toggling a fresh item creates the (item, today) row with
done 1, and toggling twice from the empty table restores the not-done
state. -/
theorem toggle_routine_item_spec_witness :
    itemLogsFor (toggle_routine_item 1 1 100 [⟨1, 1⟩] []) 1 100 1
      = [⟨1, 1, 100, 1⟩] ∧
    doneToday (toggle_routine_item 1 1 100 [⟨1, 1⟩]
        (toggle_routine_item 1 1 100 [⟨1, 1⟩] [])) 1 100 1
      = doneToday [] 1 100 1 :=
  have hyp := toggle_routine_item_spec 1 1 100 [⟨1, 1⟩] []
    ⟨⟨1, 1⟩, by decide, rfl, rfl⟩ (fun _ _ _ => Nat.zero_le 1)
  ⟨hyp.1 rfl, hyp.2.2.2⟩

/-- C6: redeeming a token whose invite row is expired or already used
renders the invalid-invite page and leaves the session untouched; and when
registration succeeds with an invite token in the session, every invite row
carrying that token is marked used by the new user id and the token is
removed from the session. -/
theorem invite_redemption (token : String) (now : Int) (invites : List Invite)
    (session : Session) (username email password confirm : String) (now2 : Int)
    (session2 : Session) (users : List User) (invites2 : List Invite) :
    ((∀ i ∈ invites, i.token = token →
        i.expires_at < now ∨ i.used_by_user_id ≠ none) →
      accept_invite token now invites session
        = (AcceptOutcome.invalidPage, session)) ∧
    (∀ tok uid ses3 users3 invites3,
      session2.invite_token = some tok →
      register username email password confirm now2 session2 users invites2
        = (RegisterOutcome.success uid, ses3, users3, invites3) →
      ses3.invite_token = none ∧
      ∀ i ∈ invites3, i.token = tok → i.used_by_user_id = some uid) := by
  refine ⟨?_, ?_⟩
  · intro hbad
    unfold accept_invite
    have hfind : findValidInvite invites token now = none := by
      unfold findValidInvite
      rw [List.find?_eq_none]
      intro i hi hp
      simp only [Bool.and_eq_true, beq_iff_eq, decide_eq_true_eq] at hp
      obtain ⟨⟨ht, hu⟩, hexp⟩ := hp
      rcases hbad i hi ht with hex | hus
      · omega
      · exact hus hu
    rw [hfind]
  · intro tok uid ses3 users3 invites3 htok hreg
    unfold register at hreg
    split at hreg
    · simp at hreg
    · split at hreg
      · simp at hreg
      · split at hreg
        next tok2 heq =>
          rw [htok] at heq
          injection heq with heq2
          subst heq2
          split at hreg
          · simp at hreg
          · unfold registerInsert at hreg
            split at hreg
            · simp at hreg
            · split at hreg
              · simp at hreg
              · rw [htok] at hreg
                simp only [Prod.mk.injEq, RegisterOutcome.success.injEq] at hreg
                obtain ⟨h1, h2, h3, h4⟩ := hreg
                refine ⟨by rw [← h2], ?_⟩
                intro i hi hit
                rw [← h4] at hi
                obtain ⟨j, hj, rfl⟩ := List.mem_map.1 hi
                by_cases hjt : (j.token == tok) = true
                · rw [if_pos hjt]
                  rw [← h1]
                · rw [if_neg hjt] at hit
                  exact absurd (beq_iff_eq.2 hit) hjt
        next heq =>
          rw [htok] at heq
          cases heq

/-- C6 witness: token t expired at time 5 is rejected at time 10 with the
session unchanged, and a successful registration with token t in the session
marks the invite used by the new user 1 and clears the session token. -/
theorem invite_redemption_witness :
    accept_invite "t" 10 [⟨"t", 5, none⟩] ⟨none, none⟩
      = (AcceptOutcome.invalidPage, ⟨none, none⟩) ∧
    ((⟨none, some 1⟩ : Session).invite_token = none ∧
      ∀ i ∈ [(⟨"t", 100, some 1⟩ : Invite)],
        i.token = "t" → i.used_by_user_id = some 1) :=
  ⟨(invite_redemption "t" 10 [⟨"t", 5, none⟩] ⟨none, none⟩ "u" "e" "p" "p" 10
      ⟨some "t", none⟩ [] [⟨"t", 100, none⟩]).1 (by decide),
   (invite_redemption "t" 10 [⟨"t", 5, none⟩] ⟨none, none⟩ "u" "e" "p" "p" 10
      ⟨some "t", none⟩ [] [⟨"t", 100, none⟩]).2 "t" 1 ⟨none, some 1⟩
     [⟨1, "u", "e"⟩] [⟨"t", 100, some 1⟩] rfl (by decide)⟩

end DailyApp
